import Mathlib

/-!
# Verification of the resume-editor document store

Shallow embedding of the editor core of the `Ai-resume-builder` repository:
the `deepSet` path updater (`src/lib/utils/deepSet.ts`), the id generator
(`src/lib/utils/ids.ts`), and the Zustand editor store (mutations
`updateField`, `addBlock`, `removeBlock`, `reorderSections`, `setTheme`,
`resetToSample`, the commit point `setDoc`, and the debounced
localStorage persistence `loadFromStorage`/`saveToStorage`).

JavaScript dynamic values reachable inside a block's `fields` record are
modelled by `DVal`; raw JSON values produced by `JSON.parse` (where
`Array.isArray` matters) are modelled by `JsonVal`.  JS arrays inside
`fields` behave, for every operation the store performs on them
(property read, property write), exactly like objects keyed by index
strings, so `DVal` folds them into `vObj`; `JsonVal` keeps arrays
distinct because `loadFromStorage` discriminates with `Array.isArray`.
-/

set_option autoImplicit false

namespace RB

/-- Dynamic JS values stored in a block's `fields` record.  `vObj` models a
JS object as an ordered association list with pairwise-distinct keys (JS
property order; arrays are objects keyed by index strings). -/
inductive DVal where
  | vNull
  | vBool (b : Bool)
  | vNum (n : Rat)
  | vStr (s : String)
  | vObj (fields : List (String × DVal))

/-- JS property read `obj[k]` on an object's entry list: the value of the
first entry whose key is `k`, `none` for `undefined`. -/
def lookupKey : List (String × DVal) → String → Option DVal
  | [], _ => none
  | (k', v) :: rest, k => if k' == k then some v else lookupKey rest k

/-- JS property write `obj[k] = v` on an object's entry list: overwrite in
place if the key exists (property order preserved), else append. -/
def setKey : List (String × DVal) → String → DVal → List (String × DVal)
  | [], k, v => [(k, v)]
  | (k', v') :: rest, k, v =>
    if k' == k then (k', v) :: rest else (k', v') :: setKey rest k v

/-- JS `String.prototype.split` with a single-character separator:
`"a.b.c".split('.') = ["a","b","c"]`, `"".split('.') = [""]`, and empty
segments are kept (`"a."` gives `["a",""]`). -/
def splitOnChar (sep : Char) : List Char → List (List Char)
  | [] => [[]]
  | c :: rest =>
    let r := splitOnChar sep rest
    if c == sep then [] :: r
    else
      match r with
      | g :: gs => (c :: g) :: gs
      | [] => [[c]]

/-- `path.split('.')` from `deepSet`. -/
def jsSplitDot (s : String) : List String :=
  (splitOnChar '.' s.data).map (fun cs => String.mk cs)

/-- The slot the `deepSet` loop descends into at key `k`: the entries of
`current[k]` when that slot holds a truthy value of JS type `'object'`,
else a fresh empty object (the loop body
`if (!current[key] || typeof current[key] !== 'object') current[key] = {}`).
In the `DVal` universe the slots of type `'object'` are exactly the
`vObj`s, `null` being falsy. -/
def childSlot (obj : List (String × DVal)) (k : String) : List (String × DVal) :=
  match lookupKey obj k with
  | some (.vObj f) => f
  | _ => []

/-- The key loop of `deepSet` (`src/lib/utils/deepSet.ts`, lines 24-40),
acting on the entry list of the target object.  For every key except the
last it descends into `current[key]`, first replacing that slot with a
fresh empty object when it is absent or does not hold a truthy value of
type `'object'`; at the final key it assigns `value` unconditionally. -/
def deepSetKeys : List String → List (String × DVal) → DVal → List (String × DVal)
  | [], obj, _ => obj
  | [k], obj, v => setKey obj k v
  | k :: k2 :: ks, obj, v =>
    setKey obj k (.vObj (deepSetKeys (k2 :: ks) (childSlot obj k) v))

/-- `deepSet(obj, path, value)` from `src/lib/utils/deepSet.ts`: throws
`deepSet: target must be an object` when the target is not a truthy
value of type `'object'` (here: not an object), else splits `path` on
`'.'` and runs the key loop.  (The non-string-path throw cannot arise in
a typed embedding where `path : String`.) -/
def deepSet (obj : DVal) (path : String) (value : DVal) : Except String DVal :=
  match obj with
  | .vObj fields => .ok (.vObj (deepSetKeys (jsSplitDot path) fields value))
  | _ => .error "deepSet: target must be an object"

/-- Reading back a dot path: descends through objects, `none` when a
segment is missing or a non-final segment does not hold an object. -/
def getPath : List String → List (String × DVal) → Option DVal
  | [], _ => none
  | [k], obj => lookupKey obj k
  | k :: k2 :: ks, obj =>
    match lookupKey obj k with
    | some (.vObj f) => getPath (k2 :: ks) f
    | _ => none

/-- Whether an optional slot holds a descendable object (truthy value of
JS type `'object'`). -/
def isObjSlot : Option DVal → Bool
  | some (.vObj _) => true
  | _ => false

/-! ## The identifier generator (`src/lib/utils/ids.ts`)

`uid = (prefix = 'id') => prefix + '_' + Math.random().toString(36).slice(2, 10)`.

`Math.random()` yields a double in `[0, 1)`; such a double is a dyadic
rational, so `Number.prototype.toString(36)` renders it as `"0"` (for
zero) or `"0." ++ digits` for a nonempty finite list of lowercase
base-36 digit characters without trailing zeros.  The generator is
therefore modelled as a function of that digit list (`[]` for zero):
`.slice(2, 10)` keeps the first eight fractional digits. -/

/-- `Math.random().toString(36).slice(2, 10)`, as a function of the
fractional base-36 digits of the random double. -/
def randSuffix (digits : List Char) : String :=
  String.mk (digits.take 8)

/-- `uid(prefix)` from `src/lib/utils/ids.ts`, as a function of the random
double's fractional base-36 digits. -/
def uid (pfx : String) (digits : List Char) : String :=
  pfx ++ "_" ++ randSuffix digits

/-- Lowercase base-36 digit characters, the alphabet of
`Number.prototype.toString(36)` output. -/
def isBase36 (c : Char) : Bool :=
  c.isDigit || (('a' ≤ c) && (c ≤ 'z'))

/-! ## The document model (`src/lib/schema/resume.ts`, `src/lib/theme.ts`) -/

/-- `theme.colors`. -/
structure ThemeColors where
  primary : String
  accent : String
  muted : String

/-- `theme.spacing`. -/
structure ThemeSpacing where
  sectionY : Rat
  itemY : Rat

/-- `theme.layout`. -/
structure ThemeLayout where
  paper : String
  columns : Rat
  gutter : Rat
  showIcons : Bool

/-- `Theme`. -/
structure Theme where
  fontFamily : String
  fontScale : Rat
  colors : ThemeColors
  spacing : ThemeSpacing
  layout : ThemeLayout

/-- `Block`: `{ id, type, fields }`, `fields` an open record. -/
structure Block where
  id : String
  type : String
  fields : List (String × DVal)

/-- `Section`: `{ id, type, title, blocks, hidden? }`. -/
structure RSection where
  id : String
  type : String
  title : String
  blocks : List Block
  hidden : Option Bool := none

/-- `meta` of a `ResumeDoc`. -/
structure Meta where
  title : String
  createdAt : Nat
  updatedAt : Nat

/-- `ResumeDoc`: the root document aggregate. -/
structure ResumeDoc where
  id : String
  meta : Meta
  theme : Theme
  sections : List RSection

/-! ## Theme patches (`Partial<Theme>`) -/

/-- `Partial` view of `theme.colors`: absent keys are `none`. -/
structure PartialColors where
  primary : Option String := none
  accent : Option String := none
  muted : Option String := none

/-- `Partial` view of `theme.spacing`. -/
structure PartialSpacing where
  sectionY : Option Rat := none
  itemY : Option Rat := none

/-- `Partial` view of `theme.layout`. -/
structure PartialLayout where
  paper : Option String := none
  columns : Option Rat := none
  gutter : Option Rat := none
  showIcons : Option Bool := none

/-- `Partial<Theme>`: each key either absent or present with a (possibly
partial) value. -/
structure PartialTheme where
  fontFamily : Option String := none
  fontScale : Option Rat := none
  colors : Option PartialColors := none
  spacing : Option PartialSpacing := none
  layout : Option PartialLayout := none

/-! ## The store mutations (`useEditorStore`, `src/store` part of the repo)

Every mutation funnels through `setDoc`, which stamps
`meta.updatedAt = Date.now()` on the updater's result and schedules a
debounced save of the stamped document.  The deep clone
(`JSON.parse(JSON.stringify(doc))`) each mutation performs is the
identity on the value level, so the updaters are modelled as pure
functions on `ResumeDoc`. -/

/-- Replace the first element satisfying `p` by its image under `f`,
leaving everything else in place: the value-level effect of looking an
element up with `Array.prototype.find` and mutating it inside a freshly
deep-cloned tree. -/
def updateFirst {α : Type} (p : α → Bool) (f : α → α) : List α → List α
  | [] => []
  | x :: xs => if p x then f x :: xs else x :: updateFirst p f xs

/-- The commit point inside `setDoc`: the updater's result with
`meta.updatedAt` stamped to the current time `now`. -/
def commitDoc (now : Nat) (d : ResumeDoc) : ResumeDoc :=
  { d with meta := { d.meta with updatedAt := now } }

/-- The updater passed to `setDoc` by `updateField(sectionId, blockId,
path, value)`: on a section or block lookup miss it warns and returns
the document unchanged; otherwise it applies the `deepSet` key loop to
the found block's `fields`. -/
def updateFieldOp (doc : ResumeDoc) (sectionId blockId path : String)
    (value : DVal) : ResumeDoc :=
  match doc.sections.find? (fun s => s.id == sectionId) with
  | none => doc
  | some sec =>
    match sec.blocks.find? (fun b => b.id == blockId) with
    | none => doc
    | some _ =>
      { doc with
        sections :=
          updateFirst (fun s => s.id == sectionId)
            (fun s =>
              { s with
                blocks :=
                  updateFirst (fun b => b.id == blockId)
                    (fun b =>
                      { b with
                        fields := deepSetKeys (jsSplitDot path) b.fields value })
                    s.blocks })
            doc.sections }

/-- The updater passed to `setDoc` by `addBlock(sectionId, blockTemplate)`:
on a section miss it warns and returns the document unchanged; otherwise
it appends `{ ...blockTemplate, id: uid(blockTemplate.type) }` to the
section's blocks.  `digits` are the random double's base-36 digits
consumed by `uid`. -/
def addBlockOp (doc : ResumeDoc) (sectionId : String) (tmpl : Block)
    (digits : List Char) : ResumeDoc :=
  match doc.sections.find? (fun s => s.id == sectionId) with
  | none => doc
  | some _ =>
    { doc with
      sections :=
        updateFirst (fun s => s.id == sectionId)
          (fun s =>
            { s with blocks := s.blocks ++ [{ tmpl with id := uid tmpl.type digits }] })
          doc.sections }

/-- The updater passed to `setDoc` by `removeBlock(sectionId, blockId)`:
on a section miss it warns and returns the document unchanged; otherwise
it keeps the blocks whose id differs from `blockId`. -/
def removeBlockOp (doc : ResumeDoc) (sectionId blockId : String) : ResumeDoc :=
  match doc.sections.find? (fun s => s.id == sectionId) with
  | none => doc
  | some _ =>
    { doc with
      sections :=
        updateFirst (fun s => s.id == sectionId)
          (fun s => { s with blocks := s.blocks.filter (fun b => !(b.id == blockId)) })
          doc.sections }

/-- `new Map(sections.map(s => [s.id, s])).get(id)`: the last section with
the given id wins when the map is built, `undefined` when none matches. -/
def sectionMapGet (sections : List RSection) (id : String) : Option RSection :=
  sections.foldl (fun acc s => if s.id == id then some s else acc) none

/-- The updater passed to `setDoc` by `reorderSections(newOrderIds)`: maps
`newOrderIds` through the id lookup and drops the misses
(`.filter(Boolean)`). -/
def reorderSectionsOp (doc : ResumeDoc) (newOrderIds : List String) : ResumeDoc :=
  { doc with sections := newOrderIds.filterMap (sectionMapGet doc.sections) }

/-- `{...doc.theme?.colors, ...partialTheme.colors}`. -/
def mergeColors (c : ThemeColors) : Option PartialColors → ThemeColors
  | none => c
  | some pc =>
    { primary := pc.primary.getD c.primary
      accent := pc.accent.getD c.accent
      muted := pc.muted.getD c.muted }

/-- `{...doc.theme?.spacing, ...partialTheme.spacing}`. -/
def mergeSpacing (sp : ThemeSpacing) : Option PartialSpacing → ThemeSpacing
  | none => sp
  | some ps =>
    { sectionY := ps.sectionY.getD sp.sectionY
      itemY := ps.itemY.getD sp.itemY }

/-- `{...doc.theme?.layout, ...partialTheme.layout}`. -/
def mergeLayout (ly : ThemeLayout) : Option PartialLayout → ThemeLayout
  | none => ly
  | some pl =>
    { paper := pl.paper.getD ly.paper
      columns := pl.columns.getD ly.columns
      gutter := pl.gutter.getD ly.gutter
      showIcons := pl.showIcons.getD ly.showIcons }

/-- The updater passed to `setDoc` by `setTheme(partialTheme)`:
`{ ...doc, theme: { ...doc.theme, ...partialTheme, colors: {...},
spacing: {...}, layout: {...} } }` — top-level keys of the patch win
wholesale, and the three nested groups are then rebuilt by independent
per-key shallow merges. -/
def setThemeOp (doc : ResumeDoc) (p : PartialTheme) : ResumeDoc :=
  { doc with
    theme :=
      { fontFamily := p.fontFamily.getD doc.theme.fontFamily
        fontScale := p.fontScale.getD doc.theme.fontScale
        colors := mergeColors doc.theme.colors p.colors
        spacing := mergeSpacing doc.theme.spacing p.spacing
        layout := mergeLayout doc.theme.layout p.layout } }

/-! ## Loading (`loadFromStorage`, store lines 38-52)

`localStorage.getItem` followed by `JSON.parse` is modelled by an input
of type `Option (Option JsonVal)`: `none` for a missing (or empty, hence
falsy) stored string, `some none` for an unreadable one (`JSON.parse`
throws, caught and warned), `some (some parsed)` for a parsed JSON
value.  The built-in `sampleResume` fallback is passed in as the
`sample` argument. -/

/-- JSON values as produced by `JSON.parse`; objects keep arrays distinct
because the validation uses `Array.isArray`. -/
inductive JsonVal where
  | jNull
  | jBool (b : Bool)
  | jNum (n : Rat)
  | jStr (s : String)
  | jArr (elems : List JsonVal)
  | jObj (fields : List (String × JsonVal))

/-- JS truthiness of a JSON value (`NaN` cannot come out of
`JSON.parse`). -/
def jsTruthy : JsonVal → Bool
  | .jNull => false
  | .jBool b => b
  | .jNum n => !(n == 0)
  | .jStr s => !(s == "")
  | .jArr _ => true
  | .jObj _ => true

/-- JS property read `parsed.k`: a defined own property of an object,
`undefined` (`none`) otherwise.  (The properties the validation reads,
`id` and `sections`, are not built-ins of any primitive or array.) -/
def getProp : JsonVal → String → Option JsonVal
  | .jObj fields, k => fields.findSome? (fun kv => if kv.1 == k then some kv.2 else none)
  | _, _ => none

/-- Truthiness of a possibly-`undefined` value. -/
def optTruthy : Option JsonVal → Bool
  | some v => jsTruthy v
  | none => false

/-- `Array.isArray` on a possibly-`undefined` value. -/
def optIsArray : Option JsonVal → Bool
  | some (.jArr _) => true
  | _ => false

/-- The validation guard of `loadFromStorage`:
`parsed && parsed.id && parsed.sections && Array.isArray(parsed.sections)`. -/
def validateStored (parsed : JsonVal) : Bool :=
  jsTruthy parsed && optTruthy (getProp parsed "id")
    && optTruthy (getProp parsed "sections")
    && optIsArray (getProp parsed "sections")

/-- `loadFromStorage()` (store lines 38-52): returns the parsed stored
value when it exists, is readable and passes the validation guard;
otherwise falls back to the built-in `sampleResume` (the `sample`
argument), unchanged. -/
def loadFromStorage (sample : JsonVal) : Option (Option JsonVal) → JsonVal
  | some (some parsed) => if validateStored parsed then parsed else sample
  | _ => sample

/-! ## Debounced saving and the store timeline
(`saveToStorage`, `setDoc`, `resetToSample`; store lines 57-93 and 224-238)

`saveToStorage(doc)` runs `clearTimeout(saveTimeout)` and schedules a
write of `doc` `AUTOSAVE_DELAY` time-units later; the in-memory store,
the single pending timer, the `localStorage` slot and the log of
executed writes form the state of a discrete-time machine.  An event
carries the `Date.now()` instant at which the call runs; a pending timer
due at or before that instant has already fired. -/

/-- `AUTOSAVE_DELAY = 500`. -/
def AUTOSAVE_DELAY : Nat := 500

/-- Machine state: the pending debounced write (due time and document),
the `localStorage` slot, the log of executed writes, and the in-memory
document. -/
structure PersistState where
  pending : Option (Nat × ResumeDoc)
  storage : Option ResumeDoc
  writes : List ResumeDoc
  mem : ResumeDoc

/-- Fire the pending timer if it is due at or before instant `upTo`: the
scheduled callback writes its document to storage. -/
def firePending (upTo : Nat) (s : PersistState) : PersistState :=
  match s.pending with
  | some (due, d) =>
    if due ≤ upTo then
      { s with pending := none, storage := some d, writes := s.writes ++ [d] }
    else s
  | none => s

/-- `resetToSample()` materializes `{ ...sampleResume, id: uid('resume'),
meta: { ...sampleResume.meta, createdAt: Date.now(), updatedAt:
Date.now() } }`. -/
def resetDocOf (sample : ResumeDoc) (now : Nat) (digits : List Char) : ResumeDoc :=
  { sample with
    id := uid "resume" digits
    meta := { sample.meta with createdAt := now, updatedAt := now } }

/-- Store events: a `setDoc` commit of an updater result `d` at instant
`t` (stamped and handed to `saveToStorage`), or a `resetToSample()` call
at instant `t` with the random digits its `uid('resume')` consumes. -/
inductive Ev where
  | commit (t : Nat) (d : ResumeDoc)
  | reset (t : Nat) (digits : List Char)

/-- One event.  A `commit` stamps `meta.updatedAt`, installs the stamped
document in memory and (`saveToStorage`) supersedes any pending write
with one due `delay` later.  A `reset` removes the stored document
(`localStorage.removeItem`) and installs the fresh sample in memory —
it neither touches the pending timer nor schedules a save. -/
def stepEv (delay : Nat) (sample : ResumeDoc) (s : PersistState) : Ev → PersistState
  | .commit t d =>
    let s' := firePending t s
    let cd := commitDoc t d
    { s' with mem := cd, pending := some (t + delay, cd) }
  | .reset t digits =>
    let s' := firePending t s
    { s' with storage := none, mem := resetDocOf sample t digits }

/-- Run a sequence of store events. -/
def runEvents (delay : Nat) (sample : ResumeDoc) : PersistState → List Ev → PersistState
  | s, [] => s
  | s, e :: es => runEvents delay sample (stepEv delay sample s e) es

/-- Quiescence: with no further events, the pending timer (if any)
eventually fires. -/
def settle (s : PersistState) : PersistState :=
  match s.pending with
  | some (_, d) => { s with pending := none, storage := some d, writes := s.writes ++ [d] }
  | none => s

/-- A burst: instants are non-decreasing and each consecutive pair of
commits is separated by less than `delay` time-units. -/
def gapsOk (delay : Nat) : List (Nat × ResumeDoc) → Bool
  | a :: b :: r => (decide (a.1 ≤ b.1) && decide (b.1 < a.1 + delay)) && gapsOk delay (b :: r)
  | _ => true

/-! ## Concrete fixtures used by witnesses and counterexamples -/

/-- The default theme of `src/lib/theme.ts`, with the concrete colors of
spec property P4. -/
def theme0 : Theme :=
  { fontFamily := "Inter, ui-sans-serif, system-ui"
    fontScale := 1
    colors := { primary := "#000", accent := "#fff", muted := "#888" }
    spacing := { sectionY := 20, itemY := 8 }
    layout := { paper := "A4", columns := 1, gutter := 24, showIcons := false } }

/-- A header section fixture. -/
def sec1 : RSection := { id := "s1", type := "header", title := "Header", blocks := [] }

/-- A summary section fixture. -/
def sec2 : RSection := { id := "s2", type := "summary", title := "Summary", blocks := [] }

/-- A skills section fixture. -/
def sec3 : RSection := { id := "s3", type := "skills", title := "Skills", blocks := [] }

/-- A document with three sections `[s1, s2, s3]`. -/
def doc3 : ResumeDoc :=
  { id := "d3"
    meta := { title := "t", createdAt := 0, updatedAt := 0 }
    theme := theme0
    sections := [sec1, sec2, sec3] }

/-- A document with two sections `[s1, s2]`. -/
def doc2X : ResumeDoc :=
  { id := "d2"
    meta := { title := "t", createdAt := 0, updatedAt := 0 }
    theme := theme0
    sections := [sec1, sec2] }

/-- A stored JSON value whose `id` is the number `42` — present and
truthy, but not a string — and whose `sections` is an array. -/
def parsedNumId : JsonVal := .jObj [("id", .jNum 42), ("sections", .jArr [])]

/-- A stand-in for the built-in sample document as a JSON value. -/
def sampleJ : JsonVal := .jObj [("id", .jStr "sample_resume_001"), ("sections", .jArr [])]

/-- The experience block template of the spec's E2E scenario: its own id
`"tmp"` must be discarded. -/
def tmplW : Block := { id := "tmp", type := "experience", fields := [("role", .vStr "Eng")] }

/-- The patch of spec property P4: `setTheme({colors: {accent: "#111"}})`. -/
def accentPatch : PartialTheme := { colors := some { accent := some "#111" } }

/-! ## Lemmas about `setKey`, `lookupKey`, `deepSetKeys` -/

theorem lookupKey_setKey_self (obj : List (String × DVal)) (k : String) (v : DVal) :
    lookupKey (setKey obj k v) k = some v := by
  induction obj with
  | nil => simp [setKey, lookupKey]
  | cons kv rest ih =>
    obtain ⟨k', v'⟩ := kv
    cases h : k' == k with
    | true => simp [setKey, lookupKey, h]
    | false => simp [setKey, lookupKey, h, ih]

theorem childSlot_of_not_obj (obj : List (String × DVal)) (k : String)
    (h : isObjSlot (lookupKey obj k) = false) : childSlot obj k = [] := by
  unfold childSlot
  cases hl : lookupKey obj k with
  | none => rfl
  | some x => cases x <;> simp_all [isObjSlot]

theorem childSlot_of_obj (obj : List (String × DVal)) (k : String)
    (f : List (String × DVal)) (h : lookupKey obj k = some (.vObj f)) :
    childSlot obj k = f := by
  unfold childSlot
  rw [h]

theorem getPath_deepSetKeys (keys : List String) (obj : List (String × DVal))
    (v : DVal) (hne : keys ≠ []) :
    getPath keys (deepSetKeys keys obj v) = some v := by
  induction keys generalizing obj with
  | nil => exact absurd rfl hne
  | cons k ks ih =>
    cases ks with
    | nil => simpa [deepSetKeys, getPath] using lookupKey_setKey_self obj k v
    | cons k2 ks' =>
      show getPath (k :: k2 :: ks')
        (setKey obj k (.vObj (deepSetKeys (k2 :: ks') (childSlot obj k) v))) = some v
      simp only [getPath, lookupKey_setKey_self]
      exact ih (childSlot obj k) (by simp)

/-! ## Claim theorems -/

/-- Claim C2: `deepSet(target, path, value)` splits `path` on `'.'`; for
every key except the last it descends into `target[key]`, first
replacing that slot with a new empty record whenever it is absent or
holds a non-record value (repair by replacement), and assigns `value`
unconditionally at the final key — so reading the path back always
yields `value`; in particular, applying path `"a.b.c"` to `{}` with any
value `v` yields `{a:{b:{c:v}}}`. -/
theorem claimC2_deepSet_semantics :
    (∀ v : DVal, deepSet (.vObj []) "a.b.c" v =
      .ok (.vObj [("a", .vObj [("b", .vObj [("c", v)])])]))
    ∧ (∀ (fields : List (String × DVal)) (path : String) (v : DVal),
        deepSet (.vObj fields) path v =
          .ok (.vObj (deepSetKeys (jsSplitDot path) fields v)))
    ∧ (∀ (keys : List String) (obj : List (String × DVal)) (v : DVal),
        keys ≠ [] → getPath keys (deepSetKeys keys obj v) = some v)
    ∧ (∀ (k k2 : String) (ks : List String) (obj : List (String × DVal)) (v : DVal),
        isObjSlot (lookupKey obj k) = false →
        lookupKey (deepSetKeys (k :: k2 :: ks) obj v) k =
          some (.vObj (deepSetKeys (k2 :: ks) [] v)))
    ∧ (∀ (k k2 : String) (ks : List String) (obj f : List (String × DVal)) (v : DVal),
        lookupKey obj k = some (.vObj f) →
        lookupKey (deepSetKeys (k :: k2 :: ks) obj v) k =
          some (.vObj (deepSetKeys (k2 :: ks) f v))) := by
  refine ⟨fun v => rfl, fun fields path v => rfl, getPath_deepSetKeys, ?_, ?_⟩
  · intro k k2 ks obj v h
    show lookupKey (setKey obj k (.vObj (deepSetKeys (k2 :: ks) (childSlot obj k) v))) k = _
    rw [childSlot_of_not_obj obj k h, lookupKey_setKey_self]
  · intro k k2 ks obj f v h
    show lookupKey (setKey obj k (.vObj (deepSetKeys (k2 :: ks) (childSlot obj k) v))) k = _
    rw [childSlot_of_obj obj k f h, lookupKey_setKey_self]

/-- Witness for C2 at concrete inputs: path `"x.y"` over a target whose
`x` slot holds the non-record value `7`, so the slot is repaired by
replacement and the read-back yields the written value. -/
theorem claimC2_witness :
    (["x", "y"] : List String) ≠ []
    ∧ getPath ["x", "y"] (deepSetKeys ["x", "y"] [("x", DVal.vNum 7)] (DVal.vStr "w"))
        = some (DVal.vStr "w")
    ∧ isObjSlot (lookupKey [("x", DVal.vNum 7)] "x") = false
    ∧ lookupKey (deepSetKeys ["x", "y"] [("x", DVal.vNum 7)] (DVal.vStr "w")) "x"
        = some (.vObj (deepSetKeys ["y"] [] (DVal.vStr "w")))
    ∧ deepSet (.vObj []) "a.b.c" (DVal.vNum 1) =
        .ok (.vObj [("a", .vObj [("b", .vObj [("c", DVal.vNum 1)])])]) :=
  ⟨by simp,
   claimC2_deepSet_semantics.2.2.1 ["x", "y"] [("x", DVal.vNum 7)] (DVal.vStr "w") (by simp),
   rfl,
   claimC2_deepSet_semantics.2.2.2.1 "x" "y" [] [("x", DVal.vNum 7)] (DVal.vStr "w") rfl,
   claimC2_deepSet_semantics.1 (DVal.vNum 1)⟩

/-- Claim C8, corrected: `uid` returns `prefix ++ "_" ++ suffix`, where
the suffix is the first *at most* eight base-36 digits of the random
double's fractional base-36 expansion: its length is `min 8 (number of
digits)`, so it falls short of eight whenever the expansion is shorter
(the original claim's "at least 8" fails, see the counterexample). -/
theorem claimC8_uid_shape :
    (∀ (pfx : String) (digits : List Char),
        uid pfx digits = pfx ++ "_" ++ String.mk (digits.take 8))
    ∧ (∀ digits : List Char, (randSuffix digits).length = min 8 digits.length)
    ∧ (∀ digits : List Char, (randSuffix digits).length ≤ 8)
    ∧ (∀ digits : List Char, (∀ c ∈ digits, isBase36 c = true) →
        ∀ c ∈ (randSuffix digits).data, isBase36 c = true) := by
  refine ⟨fun pfx digits => rfl, ?_, ?_, ?_⟩
  · intro digits
    show (digits.take 8).length = min 8 digits.length
    simp [List.length_take]
  · intro digits
    show (digits.take 8).length ≤ 8
    simp [List.length_take]
  · intro digits h c hc
    exact h c (List.mem_of_mem_take hc)

/-- Counterexample to claim C8 as stated: when `Math.random()` returns
`0.5`, whose base-36 rendering is `"0.i"`, the generated id is
`"id_i"` — no decomposition `prefix ++ "_" ++ suffix` of it has a suffix
of length at least 8. -/
theorem claimC8_counterexample :
    ¬ ∃ sfx : String, uid "id" ['i'] = "id" ++ "_" ++ sfx ∧ 8 ≤ sfx.length := by
  rintro ⟨sfx, h, hl⟩
  have hlen : (uid "id" ['i']).length = ("id" ++ "_" ++ sfx).length :=
    congrArg String.length h
  have h4 : (uid "id" ['i']).length = 4 := rfl
  rw [h4, String.length_append, String.length_append] at hlen
  have h2 : ("id" : String).length = 2 := rfl
  have h1 : ("_" : String).length = 1 := rfl
  rw [h2, h1] at hlen
  omega

/-- Witness for C8 at a concrete input: eleven base-36 digits give an
eight-character suffix. -/
theorem claimC8_witness :
    uid "id" ['4', 'f', 'z', 'z', 'z', 'x', 'j', 'y', 'l', 'b', '2'] = "id_4fzzzxjy"
    ∧ (randSuffix ['4', 'f', 'z', 'z', 'z', 'x', 'j', 'y', 'l', 'b', '2']).length = min 8 11
    ∧ (∀ c ∈ (randSuffix ['4', 'f', 'z', 'z', 'z', 'x', 'j', 'y', 'l', 'b', '2']).data,
        isBase36 c = true) :=
  ⟨rfl,
   claimC8_uid_shape.2.1 ['4', 'f', 'z', 'z', 'z', 'x', 'j', 'y', 'l', 'b', '2'],
   claimC8_uid_shape.2.2.2 ['4', 'f', 'z', 'z', 'z', 'x', 'j', 'y', 'l', 'b', '2']
     (by decide)⟩

/-- Claim C7, corrected: `loadFromStorage` returns the stored value only
if it passes the code's guard — the parsed value is an object whose `id`
property is present and *truthy* (any type: a numeric `id` passes, an
empty-string `id` fails) and whose `sections` property is an array; on
missing, unreadable, or invalid stored state it returns the built-in
sample unchanged.  (The original claim's "id present and a string" is
neither necessary nor sufficient, see the counterexample.) -/
theorem claimC7_load_validation :
    (∀ sample : JsonVal, loadFromStorage sample none = sample)
    ∧ (∀ sample : JsonVal, loadFromStorage sample (some none) = sample)
    ∧ (∀ (sample parsed : JsonVal), validateStored parsed = false →
        loadFromStorage sample (some (some parsed)) = sample)
    ∧ (∀ (sample parsed : JsonVal), validateStored parsed = true →
        loadFromStorage sample (some (some parsed)) = parsed)
    ∧ (∀ parsed : JsonVal, validateStored parsed = true ↔
        ((∃ fl, parsed = JsonVal.jObj fl)
          ∧ (∃ v, getProp parsed "id" = some v ∧ jsTruthy v = true)
          ∧ (∃ l, getProp parsed "sections" = some (JsonVal.jArr l)))) := by
  refine ⟨fun _ => rfl, fun _ => rfl, ?_, ?_, ?_⟩
  · intro sample parsed h
    simp [loadFromStorage, h]
  · intro sample parsed h
    simp [loadFromStorage, h]
  · intro parsed
    constructor
    · intro h
      simp only [validateStored, Bool.and_eq_true] at h
      obtain ⟨⟨⟨htr, hid⟩, hsec⟩, harr⟩ := h
      have hobj : ∃ fl, parsed = JsonVal.jObj fl := by
        cases parsed <;> simp_all [getProp, optTruthy]
      refine ⟨hobj, ?_, ?_⟩
      · cases hg : getProp parsed "id" with
        | none => rw [hg] at hid; exact absurd hid (by simp [optTruthy])
        | some v => exact ⟨v, rfl, by rw [hg] at hid; exact hid⟩
      · cases hg : getProp parsed "sections" with
        | none => rw [hg] at harr; exact absurd harr (by simp [optIsArray])
        | some v =>
          cases v <;> rw [hg] at harr <;> simp [optIsArray] at harr
          exact ⟨_, rfl⟩
    · rintro ⟨⟨fl, hfl⟩, ⟨v, hv, htv⟩, ⟨l, hl⟩⟩
      subst hfl
      unfold validateStored
      rw [hv, hl]
      cases v <;> simp_all [optTruthy, optIsArray, jsTruthy]

/-- Counterexample to claim C7 as stated: the stored value
`{id: 42, sections: []}` has an `id` that is present but *not a string*,
yet `loadFromStorage` trusts it and returns it instead of the sample. -/
theorem claimC7_counterexample :
    loadFromStorage sampleJ (some (some parsedNumId)) = parsedNumId
    ∧ getProp parsedNumId "id" = some (JsonVal.jNum 42)
    ∧ (∀ s : String, JsonVal.jNum 42 ≠ JsonVal.jStr s)
    ∧ parsedNumId ≠ sampleJ := by
  refine ⟨rfl, rfl, fun s h => JsonVal.noConfusion h, ?_⟩
  intro h
  have := congrArg (fun j => getProp j "id") h
  simp [parsedNumId, sampleJ, getProp] at this

/-- Witness for C7 at concrete inputs: the numeric-id object is accepted
and returned; `null` stored state falls back to the sample. -/
theorem claimC7_witness :
    loadFromStorage sampleJ (some (some parsedNumId)) = parsedNumId
    ∧ loadFromStorage sampleJ (some (some JsonVal.jNull)) = sampleJ
    ∧ (validateStored parsedNumId = true ↔
        ((∃ fl, parsedNumId = JsonVal.jObj fl)
          ∧ (∃ v, getProp parsedNumId "id" = some v ∧ jsTruthy v = true)
          ∧ (∃ l, getProp parsedNumId "sections" = some (JsonVal.jArr l)))) :=
  ⟨claimC7_load_validation.2.2.2.1 sampleJ parsedNumId rfl,
   claimC7_load_validation.2.2.1 sampleJ JsonVal.jNull rfl,
   claimC7_load_validation.2.2.2.2 parsedNumId⟩

/-! ## Lemmas about `sectionMapGet`, `find?`, `updateFirst` -/

theorem sectionMapGet_id_aux (secs : List RSection) (i : String) :
    ∀ (acc : Option RSection), (∀ s, acc = some s → s.id = i) →
      ∀ s, secs.foldl (fun acc s => if s.id == i then some s else acc) acc = some s →
        s.id = i := by
  induction secs with
  | nil => intro acc hacc s h; exact hacc s h
  | cons x rest ih =>
    intro acc hacc s h
    rw [List.foldl_cons] at h
    refine ih _ ?_ s h
    intro s' hs'
    by_cases hx : x.id == i
    · rw [if_pos hx] at hs'
      cases hs'
      exact eq_of_beq hx
    · rw [if_neg hx] at hs'
      exact hacc s' hs'

/-- A section the id→Section map returns carries the looked-up id. -/
theorem sectionMapGet_id {secs : List RSection} {i : String} {s : RSection}
    (h : sectionMapGet secs i = some s) : s.id = i :=
  sectionMapGet_id_aux secs i none (fun _ h' => Option.noConfusion h') s h

theorem find?_pre_miss {α : Type} (p : α → Bool) (pre post : List α) (x : α)
    (hpre : ∀ y ∈ pre, p y = false) (hx : p x = true) :
    (pre ++ x :: post).find? p = some x := by
  induction pre with
  | nil => simp [List.find?_cons, hx]
  | cons a rest ih =>
    have ha : p a = false := hpre a (by simp)
    simp only [List.cons_append, List.find?_cons, ha, cond_false]
    exact ih (fun y hy => hpre y (by simp [hy]))

theorem updateFirst_pre_miss {α : Type} (p : α → Bool) (f : α → α)
    (pre post : List α) (x : α)
    (hpre : ∀ y ∈ pre, p y = false) (hx : p x = true) :
    updateFirst p f (pre ++ x :: post) = pre ++ f x :: post := by
  induction pre with
  | nil => simp [updateFirst, hx]
  | cons a rest ih =>
    have ha : p a = false := hpre a (by simp)
    simp only [List.cons_append, updateFirst, ha, Bool.false_eq_true, if_false,
      List.append_eq]
    rw [ih (fun y hy => hpre y (by simp [hy]))]

/-- When the function fixes the element `find?` locates, `updateFirst` is
the identity. -/
theorem updateFirst_id_of_find? {α : Type} (p : α → Bool) (f : α → α) :
    ∀ (l : List α) (x : α), l.find? p = some x → f x = x → updateFirst p f l = l := by
  intro l
  induction l with
  | nil => intro x h; exact absurd h (by simp)
  | cons a rest ih =>
    intro x h hfx
    by_cases ha : p a
    · have hax : a = x := by simpa [List.find?_cons, ha] using h
      subst hax
      simp [updateFirst, ha, hfx]
    · have h' : rest.find? p = some x := by simpa [List.find?_cons, ha] using h
      simp [updateFirst, ha, ih x h' hfx]

/-- Filtering the rebuilt section list for a looked-up id yields that
section once per occurrence of the id in the requested order. -/
theorem filterMap_lookup_filter (secs : List RSection) (sid : String) (s : RSection)
    (h : sectionMapGet secs sid = some s) :
    ∀ order : List String,
      ((order.filterMap (sectionMapGet secs)).filter (fun x => x.id == sid)) =
        List.replicate (order.count sid) s := by
  intro order
  induction order with
  | nil => simp
  | cons i r ih =>
    by_cases hi : i = sid
    · subst hi
      simp [List.filterMap_cons, h, List.filter_cons, sectionMapGet_id h,
        List.count_cons, ih, List.replicate_succ]
    · cases hg : sectionMapGet secs i with
      | none =>
        simp [List.filterMap_cons, hg, List.count_cons, hi, ih]
      | some s' =>
        have hid : s'.id = i := sectionMapGet_id hg
        have : (s'.id == sid) = false := by
          rw [hid]
          exact beq_eq_false_iff_ne.2 hi
        simp [List.filterMap_cons, hg, List.filter_cons, this, List.count_cons, hi, ih]

/-- Claim C4: `reorderSections(newOrderIds)` rebuilds the sections by
mapping `newOrderIds` through the id→Section lookup: every section of
the result is the lookup's image of a listed id, ids with no matching
section are silently dropped, sections whose ids are omitted from
`newOrderIds` are absent from the result; in particular, for a document
with section ids `[s1, s2, s3]`, `reorderSections([s3, s1])` commits
sections `[s3, s1]` with `s2` absent. -/
theorem claimC4_reorder :
    (∀ (doc : ResumeDoc) (order : List String) (s : RSection),
        s ∈ (reorderSectionsOp doc order).sections →
          s.id ∈ order ∧ sectionMapGet doc.sections s.id = some s)
    ∧ (∀ (doc : ResumeDoc) (order : List String) (sid : String),
        sid ∉ order → ∀ s ∈ (reorderSectionsOp doc order).sections, s.id ≠ sid)
    ∧ (reorderSectionsOp doc3 ["s3", "s1"]).sections = [sec3, sec1]
    ∧ (reorderSectionsOp doc3 ["s3", "s1"]).sections.map (fun s => s.id) = ["s3", "s1"]
    ∧ (reorderSectionsOp doc3 ["s3", "s1"]).sections.all (fun s => !(s.id == "s2")) = true := by
  have key : ∀ (doc : ResumeDoc) (order : List String) (s : RSection),
      s ∈ (reorderSectionsOp doc order).sections →
        s.id ∈ order ∧ sectionMapGet doc.sections s.id = some s := by
    intro doc order s hs
    simp only [reorderSectionsOp] at hs
    rw [List.mem_filterMap] at hs
    obtain ⟨i, hi, hf⟩ := hs
    have hid := sectionMapGet_id hf
    exact ⟨hid ▸ hi, hid ▸ hf⟩
  refine ⟨key, ?_, rfl, rfl, rfl⟩
  intro doc order sid hnot s hs heq
  exact hnot (heq ▸ (key doc order s hs).1)

/-- Witness for C4 at concrete inputs: in `reorderSections([s3, s1])` on
the three-section document, the surviving section `s3` is the lookup's
image of a listed id, and the surviving `s1` is not `s2`. -/
theorem claimC4_witness :
    (sec3.id ∈ (["s3", "s1"] : List String)
      ∧ sectionMapGet doc3.sections sec3.id = some sec3)
    ∧ sec1.id ≠ "s2" := by
  have hres : (reorderSectionsOp doc3 ["s3", "s1"]).sections = [sec3, sec1] := rfl
  have hmem3 : sec3 ∈ (reorderSectionsOp doc3 ["s3", "s1"]).sections := by
    rw [hres]; exact List.mem_cons_self _ _
  have hmem1 : sec1 ∈ (reorderSectionsOp doc3 ["s3", "s1"]).sections := by
    rw [hres]; simp
  exact ⟨claimC4_reorder.1 doc3 ["s3", "s1"] sec3 hmem3,
    claimC4_reorder.2.1 doc3 ["s3", "s1"] "s2" (by decide) sec1 hmem1⟩

/-- Claim C10: when an existing section's id occurs more than once in
`newOrderIds`, the committed sections contain that section once per
occurrence — duplicate section ids are not prevented.  In general the
result filtered to a looked-up id is that section replicated
`count` times. -/
theorem claimC10_reorder_duplicates :
    (∀ (doc : ResumeDoc) (order : List String) (sid : String) (s : RSection),
        sectionMapGet doc.sections sid = some s →
        ((reorderSectionsOp doc order).sections.filter (fun x => x.id == sid)) =
          List.replicate (order.count sid) s)
    ∧ (reorderSectionsOp doc2X ["s1", "s1"]).sections = [sec1, sec1]
    ∧ ¬ ((reorderSectionsOp doc2X ["s1", "s1"]).sections.map (fun s => s.id)).Nodup := by
  refine ⟨?_, rfl, ?_⟩
  · intro doc order sid s h
    simp only [reorderSectionsOp]
    exact filterMap_lookup_filter doc.sections sid s h order
  · rw [show (reorderSectionsOp doc2X ["s1", "s1"]).sections.map (fun s => s.id)
        = ["s1", "s1"] from rfl]
    decide

/-- Witness for C10 at concrete inputs: `reorderSections([s1, s1])` on
the two-section document keeps `s1` twice. -/
theorem claimC10_witness :
    (reorderSectionsOp doc2X ["s1", "s1"]).sections.filter (fun x => x.id == "s1") =
      List.replicate ((["s1", "s1"] : List String).count "s1") sec1 :=
  claimC10_reorder_duplicates.1 doc2X ["s1", "s1"] "s1" sec1 rfl

/-- Claim C5: when a section with the requested id exists, `addBlock`
appends exactly one new block at the end of that section's block
sequence; the new block keeps the template's `fields` (and `type`) but
its id is freshly generated as `type ++ "_" ++ suffix`, discarding the
template's own id; all other sections (and all prior blocks) are
unchanged. -/
theorem claimC5_addBlock :
    (∀ (pre post : List RSection) (sec : RSection) (doc : ResumeDoc)
        (tmpl : Block) (digits : List Char),
      doc.sections = pre ++ sec :: post →
      (∀ y ∈ pre, y.id ≠ sec.id) →
      (addBlockOp doc sec.id tmpl digits).sections =
        pre ++ { sec with blocks := sec.blocks ++ [{ tmpl with id := uid tmpl.type digits }] }
          :: post)
    ∧ (∀ (tmpl : Block) (digits : List Char),
        ({ tmpl with id := uid tmpl.type digits } : Block).fields = tmpl.fields
        ∧ ({ tmpl with id := uid tmpl.type digits } : Block).type = tmpl.type
        ∧ uid tmpl.type digits = tmpl.type ++ "_" ++ randSuffix digits)
    ∧ uid tmplW.type ['1', '2', '3', '4', '5', '6', '7', '8', '9'] = "experience_12345678"
    ∧ "experience_12345678" ≠ tmplW.id := by
  refine ⟨?_, fun tmpl digits => ⟨rfl, rfl, rfl⟩, rfl, by decide⟩
  intro pre post sec doc tmpl digits hsec hpre
  have hpre' : ∀ y ∈ pre, (fun s => s.id == sec.id) y = false := by
    intro y hy
    exact beq_eq_false_iff_ne.2 (hpre y hy)
  have hfind : doc.sections.find? (fun s => s.id == sec.id) = some sec := by
    rw [hsec]
    exact find?_pre_miss _ pre post sec hpre' (by simp)
  simp only [addBlockOp, hfind]
  rw [hsec]
  exact updateFirst_pre_miss _ _ pre post sec hpre' (by simp)

/-- Witness for C5 at concrete inputs: adding the spec's E2E template to
section `s2` of the three-section document appends one
`experience_`-prefixed block to `s2` and leaves `s1` and `s3`
untouched. -/
theorem claimC5_witness :
    (addBlockOp doc3 sec2.id tmplW ['a', 'b', 'c', 'd', 'e', 'f', 'g', 'h']).sections =
      [sec1,
       { sec2 with blocks := sec2.blocks ++
          [{ tmplW with id := uid tmplW.type ['a', 'b', 'c', 'd', 'e', 'f', 'g', 'h'] }] },
       sec3] := by
  have h := claimC5_addBlock.1 [sec1] [sec3] sec2 doc3 tmplW
    ['a', 'b', 'c', 'd', 'e', 'f', 'g', 'h'] rfl
    (by intro y hy; simp only [List.mem_singleton] at hy; subst hy; decide)
  simpa using h

/-- Claim C3: `setTheme(partialTheme)` shallow-merges the nested groups
`colors`, `spacing` and `layout` independently per key (patch keys win,
omitted keys retain prior values; an absent group leaves the whole group
as it was), and replaces the top-level keys `fontFamily` and `fontScale`
wholesale when present; in particular, on a document whose colors are
`{primary: "#000", accent: "#fff", muted: "#888"}`, patching
`{colors: {accent: "#111"}}` yields
`{primary: "#000", accent: "#111", muted: "#888"}` in the committed
document. -/
theorem claimC3_setTheme :
    (∀ (doc : ResumeDoc) (p : PartialTheme) (pc : PartialColors) (a : String),
        p.colors = some pc → pc.accent = some a →
        (setThemeOp doc p).theme.colors.accent = a)
    ∧ (∀ (doc : ResumeDoc) (p : PartialTheme) (pc : PartialColors),
        p.colors = some pc → pc.primary = none →
        (setThemeOp doc p).theme.colors.primary = doc.theme.colors.primary)
    ∧ (∀ (doc : ResumeDoc) (p : PartialTheme), p.colors = none →
        (setThemeOp doc p).theme.colors = doc.theme.colors)
    ∧ (∀ (doc : ResumeDoc) (p : PartialTheme) (ps : PartialSpacing) (y : Rat),
        p.spacing = some ps → ps.itemY = some y →
        (setThemeOp doc p).theme.spacing.itemY = y)
    ∧ (∀ (doc : ResumeDoc) (p : PartialTheme) (ps : PartialSpacing),
        p.spacing = some ps → ps.sectionY = none →
        (setThemeOp doc p).theme.spacing.sectionY = doc.theme.spacing.sectionY)
    ∧ (∀ (doc : ResumeDoc) (p : PartialTheme), p.spacing = none →
        (setThemeOp doc p).theme.spacing = doc.theme.spacing)
    ∧ (∀ (doc : ResumeDoc) (p : PartialTheme) (pl : PartialLayout) (c : Rat),
        p.layout = some pl → pl.columns = some c →
        (setThemeOp doc p).theme.layout.columns = c)
    ∧ (∀ (doc : ResumeDoc) (p : PartialTheme) (pl : PartialLayout),
        p.layout = some pl → pl.paper = none →
        (setThemeOp doc p).theme.layout.paper = doc.theme.layout.paper)
    ∧ (∀ (doc : ResumeDoc) (p : PartialTheme), p.layout = none →
        (setThemeOp doc p).theme.layout = doc.theme.layout)
    ∧ (∀ (doc : ResumeDoc) (p : PartialTheme) (ff : String), p.fontFamily = some ff →
        (setThemeOp doc p).theme.fontFamily = ff)
    ∧ (∀ (doc : ResumeDoc) (p : PartialTheme), p.fontFamily = none →
        (setThemeOp doc p).theme.fontFamily = doc.theme.fontFamily)
    ∧ (∀ (doc : ResumeDoc) (p : PartialTheme) (fs : Rat), p.fontScale = some fs →
        (setThemeOp doc p).theme.fontScale = fs)
    ∧ (∀ (doc : ResumeDoc) (now : Nat),
        doc.theme.colors = { primary := "#000", accent := "#fff", muted := "#888" } →
        (commitDoc now (setThemeOp doc accentPatch)).theme.colors =
          { primary := "#000", accent := "#111", muted := "#888" }) := by
  refine ⟨?_, ?_, ?_, ?_, ?_, ?_, ?_, ?_, ?_, ?_, ?_, ?_, ?_⟩
  · intro doc p pc a h1 h2; simp [setThemeOp, mergeColors, h1, h2]
  · intro doc p pc h1 h2; simp [setThemeOp, mergeColors, h1, h2]
  · intro doc p h1; simp [setThemeOp, mergeColors, h1]
  · intro doc p ps y h1 h2; simp [setThemeOp, mergeSpacing, h1, h2]
  · intro doc p ps h1 h2; simp [setThemeOp, mergeSpacing, h1, h2]
  · intro doc p h1; simp [setThemeOp, mergeSpacing, h1]
  · intro doc p pl c h1 h2; simp [setThemeOp, mergeLayout, h1, h2]
  · intro doc p pl h1 h2; simp [setThemeOp, mergeLayout, h1, h2]
  · intro doc p h1; simp [setThemeOp, mergeLayout, h1]
  · intro doc p ff h1; simp [setThemeOp, h1]
  · intro doc p h1; simp [setThemeOp, h1]
  · intro doc p fs h1; simp [setThemeOp, h1]
  · intro doc now hcol
    simp [commitDoc, setThemeOp, accentPatch, mergeColors, hcol]

/-- Witness for C3 at concrete inputs: property P4 on the fixture
document, whose colors are exactly `{#000, #fff, #888}`, committed at
instant 5, plus a per-key merge at a concrete patch. -/
theorem claimC3_witness :
    (commitDoc 5 (setThemeOp doc3 accentPatch)).theme.colors =
      { primary := "#000", accent := "#111", muted := "#888" }
    ∧ (setThemeOp doc3 accentPatch).theme.colors.accent = "#111"
    ∧ (setThemeOp doc3 accentPatch).theme.spacing = doc3.theme.spacing :=
  ⟨claimC3_setTheme.2.2.2.2.2.2.2.2.2.2.2.2 doc3 5 rfl,
   claimC3_setTheme.1 doc3 accentPatch { accent := some "#111" } "#111" rfl rfl,
   claimC3_setTheme.2.2.2.2.2.1 doc3 accentPatch rfl⟩

/-- Claim C1, corrected: a `updateField`/`addBlock`/`removeBlock` call
referencing a section id absent from the document — or a block id absent
from the referenced section — leaves the document unchanged up to the
commit stamp: the committed document equals the original with
`meta.updatedAt` restamped to the commit instant (so it deep-equals the
original exactly only when the instant coincides with the prior
`updatedAt`; see the counterexample).  The miss is logged, never thrown,
and never partially applied. -/
theorem claimC1_noop_on_miss :
    (∀ (doc : ResumeDoc) (now : Nat) (sid bid path : String) (v : DVal)
        (tmpl : Block) (digits : List Char),
      doc.sections.find? (fun s => s.id == sid) = none →
        commitDoc now (updateFieldOp doc sid bid path v) = commitDoc now doc
        ∧ commitDoc now (addBlockOp doc sid tmpl digits) = commitDoc now doc
        ∧ commitDoc now (removeBlockOp doc sid bid) = commitDoc now doc)
    ∧ (∀ (doc : ResumeDoc) (now : Nat) (sid bid path : String) (v : DVal)
        (sec : RSection),
      doc.sections.find? (fun s => s.id == sid) = some sec →
      sec.blocks.find? (fun b => b.id == bid) = none →
        commitDoc now (updateFieldOp doc sid bid path v) = commitDoc now doc
        ∧ commitDoc now (removeBlockOp doc sid bid) = commitDoc now doc) := by
  constructor
  · intro doc now sid bid path v tmpl digits h
    refine ⟨?_, ?_, ?_⟩ <;> simp [updateFieldOp, addBlockOp, removeBlockOp, h]
  · intro doc now sid bid path v sec hsec hblk
    constructor
    · simp [updateFieldOp, hsec, hblk]
    · have hfilter : sec.blocks.filter (fun b => !(b.id == bid)) = sec.blocks := by
        rw [List.filter_eq_self]
        intro b hb
        have hbid := List.find?_eq_none.1 hblk b hb
        simp only [Bool.not_eq_true] at hbid
        simp [hbid]
      have hfix : (fun s => { s with
          blocks := s.blocks.filter (fun b => !(b.id == bid)) }) sec = sec := by
        simp only [hfilter]
      have := updateFirst_id_of_find? (fun s => s.id == sid)
        (fun s => { s with blocks := s.blocks.filter (fun b => !(b.id == bid)) })
        doc.sections sec hsec hfix
      simp [removeBlockOp, hsec, this]

/-- Counterexample to claim C1 as stated: committing
`updateField("zz", "b", "x", "v")` on the fixture document (whose
`updatedAt` is `0`) at instant `1` targets a section id absent from the
document, yet the committed document does *not* deep-equal the original:
`meta.updatedAt` is restamped by `setDoc` even for a no-op miss. -/
theorem claimC1_counterexample :
    commitDoc 1 (updateFieldOp doc3 "zz" "b" "x" (DVal.vStr "v")) ≠ doc3
    ∧ doc3.sections.find? (fun s => s.id == "zz") = none := by
  refine ⟨?_, rfl⟩
  intro h
  have h1 : (commitDoc 1 (updateFieldOp doc3 "zz" "b" "x" (DVal.vStr "v"))).meta.updatedAt
      = doc3.meta.updatedAt := congrArg (fun d => d.meta.updatedAt) h
  have h2 : (commitDoc 1 (updateFieldOp doc3 "zz" "b" "x" (DVal.vStr "v"))).meta.updatedAt
      = 1 := rfl
  have h3 : doc3.meta.updatedAt = 0 := rfl
  rw [h2, h3] at h1
  exact Nat.one_ne_zero h1

/-- Witness for C1 at concrete inputs: a miss on section id `"zz"` of the
fixture document, and a miss on block id `"nope"` inside its existing
section `s1` (which has no blocks), both commit the stamped original. -/
theorem claimC1_witness :
    commitDoc 2 (updateFieldOp doc3 "zz" "b" "x" (DVal.vStr "v")) = commitDoc 2 doc3
    ∧ commitDoc 2 (addBlockOp doc3 "zz" tmplW ['a']) = commitDoc 2 doc3
    ∧ commitDoc 2 (removeBlockOp doc3 "zz" "b") = commitDoc 2 doc3
    ∧ commitDoc 3 (updateFieldOp doc3 "s1" "nope" "x" (DVal.vStr "v")) = commitDoc 3 doc3
    ∧ commitDoc 3 (removeBlockOp doc3 "s1" "nope") = commitDoc 3 doc3 := by
  obtain ⟨ha, hb, hc⟩ :=
    claimC1_noop_on_miss.1 doc3 2 "zz" "b" "x" (DVal.vStr "v") tmplW ['a'] rfl
  obtain ⟨hd, he⟩ :=
    claimC1_noop_on_miss.2 doc3 3 "s1" "nope" "x" (DVal.vStr "v") sec1 rfl rfl
  exact ⟨ha, hb, hc, hd, he⟩

/-- Inside a burst, every commit supersedes the pending write scheduled by
the previous one before it can fire, so a single write — of the last
commit's stamped document — remains pending at the end. -/
theorem runEvents_burst_aux (delay : Nat) (sample : ResumeDoc) :
    ∀ (rest : List (Nat × ResumeDoc)) (t : Nat) (d : ResumeDoc)
      (stor : Option ResumeDoc) (wr : List ResumeDoc),
      gapsOk delay ((t, d) :: rest) = true →
      settle (runEvents delay sample
        ⟨some (t + delay, commitDoc t d), stor, wr, commitDoc t d⟩
        (rest.map (fun p => Ev.commit p.1 p.2))) =
        ⟨none,
         some (commitDoc (rest.getLastD (t, d)).1 (rest.getLastD (t, d)).2),
         wr ++ [commitDoc (rest.getLastD (t, d)).1 (rest.getLastD (t, d)).2],
         commitDoc (rest.getLastD (t, d)).1 (rest.getLastD (t, d)).2⟩ := by
  intro rest
  induction rest with
  | nil =>
    intro t d stor wr _
    simp [runEvents, settle, List.getLastD]
  | cons a rest ih =>
    intro t d stor wr hg
    obtain ⟨t2, d2⟩ := a
    have hg' : (t ≤ t2 ∧ t2 < t + delay) ∧ gapsOk delay ((t2, d2) :: rest) = true := by
      simpa [gapsOk, Bool.and_eq_true, decide_eq_true_eq] using hg
    rw [List.map_cons, runEvents]
    have hnotdue : ¬ (t + delay ≤ t2) := by omega
    have hstep : stepEv delay sample
        ⟨some (t + delay, commitDoc t d), stor, wr, commitDoc t d⟩ (Ev.commit t2 d2)
        = ⟨some (t2 + delay, commitDoc t2 d2), stor, wr, commitDoc t2 d2⟩ := by
      simp [stepEv, firePending, hnotdue]
    rw [hstep, ih t2 d2 stor wr hg'.2]
    rw [List.getLastD_cons]

/-- Claim C6: for every burst of `N ≥ 1` commits through `setDoc` whose
consecutive instants are separated by less than the debounce delay
(`AUTOSAVE_DELAY = 500`), exactly one durable write is executed once the
burst quiesces — the write log grows by exactly one entry, holding the
stamped document of the burst's last commit, which is also what storage
then holds; each newer scheduled write supersedes the pending one
instead of queuing behind it. -/
theorem claimC6_debounce :
    ∀ (sample : ResumeDoc) (t : Nat) (d : ResumeDoc) (rest : List (Nat × ResumeDoc))
      (stor : Option ResumeDoc) (wr : List ResumeDoc) (mem0 : ResumeDoc),
      gapsOk AUTOSAVE_DELAY ((t, d) :: rest) = true →
      settle (runEvents AUTOSAVE_DELAY sample ⟨none, stor, wr, mem0⟩
          (((t, d) :: rest).map (fun p => Ev.commit p.1 p.2))) =
        ⟨none,
         some (commitDoc (rest.getLastD (t, d)).1 (rest.getLastD (t, d)).2),
         wr ++ [commitDoc (rest.getLastD (t, d)).1 (rest.getLastD (t, d)).2],
         commitDoc (rest.getLastD (t, d)).1 (rest.getLastD (t, d)).2⟩ := by
  intro sample t d rest stor wr mem0 hg
  rw [List.map_cons, runEvents]
  have hstep : stepEv AUTOSAVE_DELAY sample ⟨none, stor, wr, mem0⟩ (Ev.commit t d)
      = ⟨some (t + AUTOSAVE_DELAY, commitDoc t d), stor, wr, commitDoc t d⟩ := by
    simp [stepEv, firePending]
  rw [hstep]
  exact runEvents_burst_aux AUTOSAVE_DELAY sample rest t d stor wr hg

/-- Witness for C6 at concrete inputs: three commits at instants 0, 100
and 400 (gaps 100 and 300, both under 500) yield exactly one write,
holding the stamped document of the commit at 400. -/
theorem claimC6_witness :
    gapsOk AUTOSAVE_DELAY [(0, doc3), (100, doc2X), (400, doc3)] = true
    ∧ settle (runEvents AUTOSAVE_DELAY doc3 ⟨none, none, [], doc3⟩
        ([(0, doc3), (100, doc2X), (400, doc3)].map (fun p => Ev.commit p.1 p.2))) =
      ⟨none, some (commitDoc 400 doc3), [] ++ [commitDoc 400 doc3], commitDoc 400 doc3⟩ := by
  refine ⟨rfl, ?_⟩
  exact claimC6_debounce doc3 0 doc3 [(100, doc2X), (400, doc3)] none [] doc3 rfl

/-- Claim C9: when a debounced save (scheduled by a commit at `t0`) is
still pending as `resetToSample()` runs at `t1 < t0 + delay`, the reset
removes the stored document and installs the fresh sample in memory but
leaves the pending timer in place; once the delay elapses, the pre-reset
stamped document is written back, so the persisted state is the
pre-reset document rather than empty. -/
theorem claimC9_reset_keeps_pending_save :
    ∀ (delay : Nat) (sample : ResumeDoc) (stor : Option ResumeDoc)
      (wr : List ResumeDoc) (mem0 : ResumeDoc) (t0 : Nat) (d : ResumeDoc)
      (t1 : Nat) (digits : List Char),
      t0 ≤ t1 → t1 < t0 + delay →
      stepEv delay sample (stepEv delay sample ⟨none, stor, wr, mem0⟩ (.commit t0 d))
          (.reset t1 digits) =
        ⟨some (t0 + delay, commitDoc t0 d), none, wr, resetDocOf sample t1 digits⟩
      ∧ settle (stepEv delay sample
            (stepEv delay sample ⟨none, stor, wr, mem0⟩ (.commit t0 d))
            (.reset t1 digits)) =
        ⟨none, some (commitDoc t0 d), wr ++ [commitDoc t0 d],
         resetDocOf sample t1 digits⟩ := by
  intro delay sample stor wr mem0 t0 d t1 digits hle hlt
  have h1 : stepEv delay sample ⟨none, stor, wr, mem0⟩ (.commit t0 d)
      = ⟨some (t0 + delay, commitDoc t0 d), stor, wr, commitDoc t0 d⟩ := by
    simp [stepEv, firePending]
  have hnot : ¬ (t0 + delay ≤ t1) := by omega
  have h2 : stepEv delay sample
      ⟨some (t0 + delay, commitDoc t0 d), stor, wr, commitDoc t0 d⟩ (.reset t1 digits)
      = ⟨some (t0 + delay, commitDoc t0 d), none, wr, resetDocOf sample t1 digits⟩ := by
    simp [stepEv, firePending, hnot]
  rw [h1, h2]
  exact ⟨rfl, by simp [settle]⟩

/-- Witness for C9 at concrete inputs: a commit at instant 0 followed by a
reset at instant 100 (inside the 500-unit window) ends, after
quiescence, with the pre-reset stamped document back in storage while
memory holds the fresh sample. -/
theorem claimC9_witness :
    settle (stepEv AUTOSAVE_DELAY doc3
        (stepEv AUTOSAVE_DELAY doc3 ⟨none, none, [], doc3⟩ (.commit 0 doc2X))
        (.reset 100 ['x'])) =
      ⟨none, some (commitDoc 0 doc2X), [] ++ [commitDoc 0 doc2X],
       resetDocOf doc3 100 ['x']⟩ :=
  (claimC9_reset_keeps_pending_save AUTOSAVE_DELAY doc3 none [] doc3 0 doc2X 100 ['x']
    (by decide) (by decide)).2

end RB
